import Mathlib

/-!
Shallow embedding of `src/lerobot/robots/multi_so101_follower/multi_so101_follower.py`
(class `MultiSO101Follower`), together with theorems settling the claims about it.

Python dictionaries are modelled as insertion-ordered association lists over
`String` keys (`Dict V`).  `Dict.insert` is Python `d[k] = v` (overwrite in
place, otherwise append at the end), `Dict.update` is `d.update(e)`, and
`Dict.ofList` is a dict comprehension (build from the empty dict in iteration
order).  Python `==` on dicts ignores insertion order; it is `Dict.equiv`.

The collaborator objects (`SO101Follower` sub-arms, cameras, base `Robot`) are
opaque external services: they are modelled as records of abstract response
functions and data, and the multi-arm methods that call into them additionally
return a trace of the calls made, so that claims about which sub-device is
called, with which argument and in which order, can be stated.
-/

set_option autoImplicit false

namespace MultiSO101

/-! ## Python dictionaries as ordered association lists -/

abbrev Dict (V : Type) := List (String × V)

namespace Dict

variable {V : Type}

/-- Lookup `d[k]` (as an `Option`, i.e. `d.get(k)`). -/
def get? (k : String) : Dict V → Option V
  | [] => none
  | p :: d => if p.1 = k then some p.2 else get? k d

/-- The key list `list(d.keys())`. -/
def keys (d : Dict V) : List String := d.map Prod.fst

/-- Python `k in d`. -/
def hasKey (d : Dict V) (k : String) : Bool := d.any (fun p => p.1 = k)

/-- Python dict assignment `d[k] = v`: overwrite in place, else append. -/
def insert : Dict V → String → V → Dict V
  | [], k, v => [(k, v)]
  | p :: d, k, v => if p.1 = k then (k, v) :: d else p :: insert d k v

/-- Python `d.update(e)`: insert every entry of `e` into `d`, in order. -/
def update (d : Dict V) (e : Dict V) : Dict V :=
  e.foldl (fun acc p => insert acc p.1 p.2) d

/-- A dict comprehension: build a dict from the produced pairs, in order. -/
def ofList (l : List (String × V)) : Dict V := update [] l

/-- Well-formedness of Python dicts: keys are pairwise distinct. -/
def NodupKeys (d : Dict V) : Prop := d.keys.Nodup

/-- Python `==` on dicts: same key-value mapping, order ignored. -/
def equiv (d e : Dict V) : Prop := ∀ k, get? k d = get? k e

instance (d : Dict V) : Decidable (NodupKeys d) :=
  inferInstanceAs (Decidable d.keys.Nodup)

end Dict

/-! ## Python string helpers: `startswith`, `removeprefix` -/

/-- First list is a front piece of the second (character lists). -/
def isPre : List Char → List Char → Bool
  | [], _ => true
  | _ :: _, [] => false
  | a :: p, b :: s => a == b && isPre p s

/-- Python `s.startswith(t)`. -/
def strStarts (s t : String) : Bool := isPre t.data s.data

/-- Python `s.removeprefix(t)`: drop `t` from the front when it is there. -/
def strStrip (s t : String) : String :=
  if strStarts s t then String.mk (s.data.drop t.data.length) else s

/-! ## Configuration records

`config_multi_so101_follower.py` is not part of the provided sources; the
fields below are exactly those the provided file reads.  The numeric payload
of `max_relative_target` (a float or float list in Python) plays no role in
any claim and is abstracted as `Int`. -/

structure CameraConfig where
  height : Nat
  width : Nat
  deriving DecidableEq

structure SO101FollowerConfig where
  id : Option String
  calibration_dir : Option String
  port : String
  disable_torque_on_disconnect : Bool
  max_relative_target : Option Int
  use_degrees : Bool
  cameras : Dict CameraConfig

structure MultiSO101FollowerConfig where
  id : Option String
  calibration_dir : Option String
  arm_ports : List String
  disable_torque_on_disconnect : Bool
  max_relative_target : Option Int
  use_degrees : Bool
  cameras : Dict CameraConfig

/-! ## Opaque collaborator models

`SO101Follower` arms, cameras and the `Robot` base class are external
services.  Each is a record of abstract responses; `V` is the value type of
action/observation entries, exceptions carry a `String` payload. -/

structure SO101Follower (V : Type) where
  /-- Response function of `arm.send_action`. -/
  sendAction : Dict V → Dict V
  /-- Value returned by `arm.get_observation()`. -/
  observation : Dict V
  /-- Keys of `arm.bus.motors`. -/
  motors : List String
  /-- Value of `arm.bus.is_connected`. -/
  busConnected : Bool
  /-- Value of `arm.is_calibrated`. -/
  calibrated : Bool
  /-- Outcome of `arm.connect(calibrate)`: `ok` or a raised exception. -/
  connectOutcome : Bool → Except String Unit

structure Camera (V : Type) where
  /-- Value returned by `cam.async_read()`. -/
  frame : V
  /-- Value of `cam.is_connected`. -/
  connected : Bool
  /-- Outcome of `cam.connect()`: `ok` or a raised exception. -/
  connectOutcome : Except String Unit

/-- Feature descriptors: the Python type `float` for motor entries, a
`(height, width, 3)` shape tuple for camera entries. -/
inductive Feature where
  | float
  | shape (h w c : Nat)
  deriving DecidableEq

/-! ## The MultiSO101Follower object -/

/-- State of a `MultiSO101Follower` instance.  The two `Option` fields model
the storage slots of the `@cached_property` decorators on
`observation_features` and `action_features` (`functools.cached_property`
computes on first access and stores the result in the instance). -/
structure MultiSO101Follower (V : Type) where
  /-- `self.arms`, an insertion-ordered dict of sub-arms. -/
  arms : List (String × SO101Follower V)
  /-- `self.arm_names`. -/
  arm_names : List String
  /-- `self.cameras`, an insertion-ordered dict of cameras. -/
  cameras : List (String × Camera V)
  /-- `self.config.cameras`. -/
  camera_configs : Dict CameraConfig
  /-- `cached_property` slot of `observation_features`. -/
  obs_features_cache : Option (Dict Feature)
  /-- `cached_property` slot of `action_features`. -/
  act_features_cache : Option (Dict Feature)

/-- Arm name for a 1-based index: `f"arm{idx}"` (line 54). -/
def armName (idx : Nat) : String := "arm" ++ toString idx

/-- Sub-arm id: `f"{config.id}_{arm_name}" if config.id else None` (line 58);
Python truthiness makes both `None` and the empty string falsy. -/
def armId (cid : Option String) (name : String) : Option String :=
  match cid with
  | some s => if s.isEmpty then none else some (s ++ "_" ++ name)
  | none => none

/-- The `SO101FollowerConfig` built for the arm at 1-based index `idx` with
the given port (lines 57-65). -/
def armConfig (config : MultiSO101FollowerConfig) (idx : Nat) (port : String) :
    SO101FollowerConfig :=
  { id := armId config.id (armName idx)
    calibration_dir := config.calibration_dir
    port := port
    disable_torque_on_disconnect := config.disable_torque_on_disconnect
    max_relative_target := config.max_relative_target
    use_degrees := config.use_degrees
    cameras := [] }

/-- `MultiSO101Follower.__init__` (lines 42-69), parameterised by the opaque
external constructors `SO101Follower(...)` and
`make_cameras_from_configs(...)`.  An empty `arm_ports` list is falsy in
Python, so the guard raises `ValueError` before any sub-arm or camera is
created. -/
def init {V : Type} (mkArm : SO101FollowerConfig → SO101Follower V)
    (mkCameras : Dict CameraConfig → List (String × Camera V))
    (config : MultiSO101FollowerConfig) :
    Except String (MultiSO101Follower V) :=
  if config.arm_ports.isEmpty then
    Except.error "arm_ports must contain at least one port"
  else
    Except.ok
      { arms := config.arm_ports.enum.map
          (fun p => (armName (p.1 + 1), mkArm (armConfig config (p.1 + 1) p.2)))
        arm_names := config.arm_ports.enum.map (fun p => armName (p.1 + 1))
        cameras := mkCameras config.cameras
        camera_configs := config.cameras
        obs_features_cache := none
        act_features_cache := none }

/-! ## Feature properties -/

/-- Property `_motors_ft` (lines 71-78): one `float` entry
`f"{arm_name}_{motor}.pos"` per motor of each arm, recomputed on every
access. -/
def motors_ft {V : Type} (r : MultiSO101Follower V) : Dict Feature :=
  r.arms.foldl
    (fun acc p =>
      p.2.motors.foldl
        (fun acc2 m => Dict.insert acc2 (p.1 ++ "_" ++ m ++ ".pos") Feature.float)
        acc)
    []

/-- Property `_cameras_ft` (lines 80-84): `{cam: (h, w, 3) for cam in
self.cameras}` with `h`, `w` read from `self.config.cameras[cam]`.  For every
device built by `init` the key is present; on a missing key Python would
raise `KeyError`, modelled here by a default shape no claim relies on. -/
def cameras_ft {V : Type} (r : MultiSO101Follower V) : Dict Feature :=
  Dict.ofList (r.cameras.map (fun c =>
    match Dict.get? c.1 r.camera_configs with
    | some cc => (c.1, Feature.shape cc.height cc.width 3)
    | none => (c.1, Feature.shape 0 0 3)))

/-- `observation_features` (lines 86-88), a `cached_property`: on first
access compute `{**self._motors_ft, **self._cameras_ft}` and store it; on
later accesses return the stored dict.  Returns the value and the
possibly-updated instance. -/
def observation_features {V : Type} (r : MultiSO101Follower V) :
    Dict Feature × MultiSO101Follower V :=
  match r.obs_features_cache with
  | some v => (v, r)
  | none =>
    let v := Dict.update (motors_ft r) (cameras_ft r)
    (v, { r with obs_features_cache := some v })

/-- `action_features` (lines 90-92), a `cached_property` over `_motors_ft`. -/
def action_features {V : Type} (r : MultiSO101Follower V) :
    Dict Feature × MultiSO101Follower V :=
  match r.act_features_cache with
  | some v => (v, r)
  | none =>
    let v := motors_ft r
    (v, { r with act_features_cache := some v })

/-- Models an external in-place change of one sub-arm's motor table: the bus
belongs to the opaque collaborator and may evolve between accesses. -/
def setArmMotors {V : Type} (r : MultiSO101Follower V) (n : String)
    (ms : List String) : MultiSO101Follower V :=
  { r with arms := r.arms.map (fun p => if p.1 = n then (p.1, { p.2 with motors := ms }) else p) }

/-- `is_connected` (lines 94-98). -/
def is_connected {V : Type} (r : MultiSO101Follower V) : Bool :=
  r.arms.all (fun p => p.2.busConnected) && r.cameras.all (fun c => c.2.connected)

/-- `is_calibrated` (lines 108-110). -/
def is_calibrated {V : Type} (r : MultiSO101Follower V) : Bool :=
  r.arms.all (fun p => p.2.calibrated)

/-! ## Observation and action routing -/

/-- `get_observation` (lines 125-140): prefix every arm's observation with
its name and merge, then add one entry per camera under the camera's own
key. -/
def get_observation {V : Type} (r : MultiSO101Follower V) : Dict V :=
  let obs := r.arms.foldl
    (fun acc p =>
      Dict.update acc (Dict.ofList (p.2.observation.map (fun q => (p.1 ++ "_" ++ q.1, q.2)))))
    []
  r.cameras.foldl (fun acc c => Dict.insert acc c.1 c.2.frame) obs

/-- `has_prefixes` (line 153): some action key starts with some arm's
`f"{arm_name}_"`. -/
def hasArmPre {V : Type} (r : MultiSO101Follower V) (action : Dict V) : Bool :=
  r.arm_names.any (fun n => action.any (fun p => strStarts p.1 (n ++ "_")))

/-- The dict comprehension of lines 159-163: entries of `action` whose key
starts with `f"{arm_name}_"`, with that front piece stripped. -/
def armActionOf {V : Type} (n : String) (action : Dict V) : Dict V :=
  Dict.ofList ((action.filter (fun q => strStarts q.1 (n ++ "_"))).map
    (fun q => (strStrip q.1 (n ++ "_"), q.2)))

/-- The dict comprehension of lines 168/174: an arm's `send_action` result
with the arm's name re-attached to every key. -/
def withArmPre {V : Type} (n : String) (d : Dict V) : Dict V :=
  Dict.ofList (d.map (fun q => (n ++ "_" ++ q.1, q.2)))

/-- Loop body of the directed branch of `send_action` (lines 157-168): strip
the arm's matching entries, skip the arm when none match, otherwise call it
and fold its re-prefixed result into the accumulated `result`.  The state is
(result so far, calls made so far). -/
def dStep {V : Type} (action : Dict V)
    (st : Dict V × List (String × Dict V × Dict V)) (p : String × SO101Follower V) :
    Dict V × List (String × Dict V × Dict V) :=
  let arm_action := armActionOf p.1 action
  if arm_action.isEmpty then st
  else
    let res := p.2.sendAction arm_action
    (Dict.update st.1 (withArmPre p.1 res), st.2 ++ [(p.1, arm_action, res)])

/-- Loop body of the broadcast branch of `send_action` (lines 171-174): call
the arm with the whole action and fold its re-prefixed result in. -/
def bStep {V : Type} (action : Dict V)
    (st : Dict V × List (String × Dict V × Dict V)) (p : String × SO101Follower V) :
    Dict V × List (String × Dict V × Dict V) :=
  let res := p.2.sendAction action
  (Dict.update st.1 (withArmPre p.1 res), st.2 ++ [(p.1, action, res)])

/-- `send_action` (lines 142-176).  Returns the `result` dict and the trace
of sub-arm calls made, each as (arm name, dict passed, dict returned). -/
def send_action {V : Type} (r : MultiSO101Follower V) (action : Dict V) :
    Dict V × List (String × Dict V × Dict V) :=
  if hasArmPre r action then
    r.arms.foldl (dStep action) ([], [])
  else
    r.arms.foldl (bStep action) ([], [])

/-! ## Lifecycle fan-out

Calls into sub-devices are recorded as events; an event is recorded when the
call is made, whether or not it raises.  `connect` may raise (the arms' and
cameras' `connect` outcomes are part of the collaborator model);
`calibrate`, `configure` and `disconnect` calls are modelled as returning
normally, which is all the claims about them state. -/

inductive LifeEvent where
  | armConnect (n : String) (cal : Bool)
  | camConnect (n : String)
  | armCalibrate (n : String)
  | armConfigure (n : String)
  | armDisconnect (n : String)
  | camDisconnect (n : String)
  deriving DecidableEq

/-- The arm loop of `connect` (lines 101-103): connect each arm in order,
stopping at (and propagating) the first raised exception. -/
def connectArms {V : Type} :
    List (String × SO101Follower V) → Bool → Except String Unit × List LifeEvent
  | [], _ => (Except.ok (), [])
  | p :: rest, cal =>
    match p.2.connectOutcome cal with
    | Except.error e => (Except.error e, [LifeEvent.armConnect p.1 cal])
    | Except.ok _ =>
      let st := connectArms rest cal
      (st.1, LifeEvent.armConnect p.1 cal :: st.2)

/-- The camera loop of `connect` (lines 105-106). -/
def connectCams {V : Type} :
    List (String × Camera V) → Except String Unit × List LifeEvent
  | [] => (Except.ok (), [])
  | c :: rest =>
    match c.2.connectOutcome with
    | Except.error e => (Except.error e, [LifeEvent.camConnect c.1])
    | Except.ok _ =>
      let st := connectCams rest
      (st.1, LifeEvent.camConnect c.1 :: st.2)

/-- `connect` (lines 100-106): all arms first, then all cameras. -/
def connect {V : Type} (r : MultiSO101Follower V) (cal : Bool) :
    Except String Unit × List LifeEvent :=
  let sa := connectArms r.arms cal
  match sa.1 with
  | Except.error e => (Except.error e, sa.2)
  | Except.ok _ =>
    let sc := connectCams r.cameras
    (sc.1, sa.2 ++ sc.2)

/-- `calibrate` (lines 112-115). -/
def calibrate {V : Type} (r : MultiSO101Follower V) : List LifeEvent :=
  r.arms.map (fun p => LifeEvent.armCalibrate p.1)

/-- `configure` (lines 117-119). -/
def configure {V : Type} (r : MultiSO101Follower V) : List LifeEvent :=
  r.arms.map (fun p => LifeEvent.armConfigure p.1)

/-- `disconnect` (lines 178-183): all arms, then all cameras. -/
def disconnect {V : Type} (r : MultiSO101Follower V) : List LifeEvent :=
  r.arms.map (fun p => LifeEvent.armDisconnect p.1)
    ++ r.cameras.map (fun c => LifeEvent.camDisconnect c.1)

/-! ## Spec-side descriptions

These restate, in the claims' own terms, what the routing code is claimed to
produce; the theorems compare them with the embedded code. -/

/-- The calls the directed branch is claimed to make: each arm whose name
matches some action key, once, in arm order, with the stripped sub-dict;
recorded as (name, dict passed, dict returned). -/
def dCalls {V : Type} (as : List (String × SO101Follower V)) (action : Dict V) :
    List (String × Dict V × Dict V) :=
  as.filterMap (fun p =>
    if (armActionOf p.1 action).isEmpty then none
    else some (p.1, armActionOf p.1 action, p.2.sendAction (armActionOf p.1 action)))

/-- The calls the broadcast branch is claimed to make: every arm, once, in
arm order, with the whole action dict. -/
def bCalls {V : Type} (as : List (String × SO101Follower V)) (action : Dict V) :
    List (String × Dict V × Dict V) :=
  as.map (fun p => (p.1, action, p.2.sendAction action))

/-- The claimed aggregate: the union over a call list of each returned dict
with the arm's name re-attached, later arms overwriting earlier ones. -/
def unionPre {V : Type} (acc : Dict V) (calls : List (String × Dict V × Dict V)) :
    Dict V :=
  calls.foldl (fun d c => Dict.update d (withArmPre c.1 c.2.2)) acc

/-- The observation dict claim C4 describes: every arm entry under
`f"{arm_name}_{key}"`, in arm order, followed by one entry per camera under
the camera's own key. -/
def expected_observation {V : Type} (r : MultiSO101Follower V) : Dict V :=
  (r.arms.flatMap (fun p => p.2.observation.map (fun q => (p.1 ++ "_" ++ q.1, q.2))))
    ++ r.cameras.map (fun c => (c.1, c.2.frame))

/-! ## Concrete instances used to witness the theorems -/

/-- A sub-arm whose `send_action` echoes its input. -/
def idArm : SO101Follower Nat :=
  { sendAction := fun d => d
    observation := [("x", 7)]
    motors := ["m"]
    busConnected := true
    calibrated := true
    connectOutcome := fun _ => Except.ok () }

def camOk : Camera Nat :=
  { frame := 9
    connected := true
    connectOutcome := Except.ok () }

/-- A two-arm, one-camera device in the shape `__init__` produces. -/
def devW : MultiSO101Follower Nat :=
  { arms := [("arm1", idArm), ("arm2", idArm)]
    arm_names := ["arm1", "arm2"]
    cameras := [("cam", camOk)]
    camera_configs := [("cam", { height := 4, width := 6 })]
    obs_features_cache := none
    act_features_cache := none }

/-- Opaque constructor stand-ins for witnesses. -/
def mkArmW : SO101FollowerConfig → SO101Follower Nat := fun _ => idArm

def mkCamsW : Dict CameraConfig → List (String × Camera Nat) := fun _ => [("cam", camOk)]

def cfgEmpty : MultiSO101FollowerConfig :=
  { id := none
    calibration_dir := none
    arm_ports := []
    disable_torque_on_disconnect := true
    max_relative_target := none
    use_degrees := false
    cameras := [] }

/-- A sub-arm with a one-entry observation, used for the C4 counterexample. -/
def obsArm : SO101Follower Nat :=
  { sendAction := fun d => d
    observation := [("x", 0)]
    motors := ["m"]
    busConnected := true
    calibrated := true
    connectOutcome := fun _ => Except.ok () }

/-- A connected device whose camera key `"arm1_x"` collides with the
prefixed key of the arm observation entry `"x"`. -/
def devC4 : MultiSO101Follower Nat :=
  { arms := [("arm1", obsArm)]
    arm_names := ["arm1"]
    cameras := [("arm1_x",
      { frame := 1, connected := true, connectOutcome := Except.ok () })]
    camera_configs := []
    obs_features_cache := none
    act_features_cache := none }

/-- A sub-arm whose `connect` raises. -/
def failArm : SO101Follower Nat :=
  { sendAction := fun d => d
    observation := []
    motors := []
    busConnected := false
    calibrated := false
    connectOutcome := fun _ => Except.error "boom" }

/-- A device whose second arm fails to connect. -/
def devF : MultiSO101Follower Nat :=
  { arms := [("arm1", idArm), ("arm2", failArm), ("arm3", idArm)]
    arm_names := ["arm1", "arm2", "arm3"]
    cameras := [("cam", camOk)]
    camera_configs := [("cam", { height := 4, width := 6 })]
    obs_features_cache := none
    act_features_cache := none }

/-- A camera whose `connect` raises. -/
def failCam : Camera Nat :=
  { frame := 0
    connected := false
    connectOutcome := Except.error "cam boom" }

/-- A device whose arms connect cleanly but whose second camera fails. -/
def devFC : MultiSO101Follower Nat :=
  { arms := [("arm1", idArm)]
    arm_names := ["arm1"]
    cameras := [("cam1", camOk), ("cam2", failCam), ("cam3", camOk)]
    camera_configs := [("cam1", { height := 4, width := 6 }),
      ("cam2", { height := 4, width := 6 }), ("cam3", { height := 4, width := 6 })]
    obs_features_cache := none
    act_features_cache := none }

def cfg2 : MultiSO101FollowerConfig :=
  { id := some "left_right"
    calibration_dir := none
    arm_ports := ["/dev/ttyA", "/dev/ttyB"]
    disable_torque_on_disconnect := true
    max_relative_target := none
    use_degrees := false
    cameras := [("cam", { height := 4, width := 6 })] }

/-! ## Lemma layer -/

namespace Dict

variable {V : Type}

@[simp] theorem get?_nil (k : String) : get? k ([] : Dict V) = none := rfl

@[simp] theorem get?_cons (k : String) (p : String × V) (d : Dict V) :
    get? k (p :: d) = if p.1 = k then some p.2 else get? k d := rfl

@[simp] theorem keys_nil : keys ([] : Dict V) = [] := rfl

@[simp] theorem keys_cons (p : String × V) (d : Dict V) :
    keys (p :: d) = p.1 :: keys d := rfl

theorem keys_append (d e : Dict V) : keys (d ++ e) = keys d ++ keys e := by
  simp [keys]

theorem hasKey_iff (d : Dict V) (k : String) : hasKey d k = true ↔ k ∈ keys d := by
  induction d with
  | nil => simp [hasKey, keys]
  | cons p d ih =>
    simp only [hasKey, List.any_cons, keys_cons, List.mem_cons, Bool.or_eq_true,
      decide_eq_true_eq] at *
    constructor
    · rintro (h | h)
      · exact Or.inl h.symm
      · exact Or.inr (ih.mp h)
    · rintro (h | h)
      · exact Or.inl h.symm
      · exact Or.inr (ih.mpr h)

theorem get?_eq_none_of_not_mem {d : Dict V} {k : String} (h : k ∉ keys d) :
    get? k d = none := by
  induction d with
  | nil => rfl
  | cons p d ih =>
    simp only [keys_cons, List.mem_cons, not_or] at h
    simp [Ne.symm h.1, ih h.2]

theorem get?_append (k : String) (d e : Dict V) :
    get? k (d ++ e) = ((get? k d).rec (get? k e) (fun v => some v) : Option V) := by
  induction d with
  | nil => simp
  | cons p d ih =>
    by_cases h : p.1 = k <;> simp [h, ih]

theorem get?_insert (d : Dict V) (k k' : String) (v : V) :
    get? k' (insert d k v) = if k = k' then some v else get? k' d := by
  induction d with
  | nil => simp [insert]
  | cons p d ih =>
    by_cases h : p.1 = k
    · subst h
      by_cases h' : p.1 = k' <;> simp [insert, h']
    · by_cases h' : p.1 = k'
      · subst h'
        simp [insert, h, ih, Ne.symm h]
      · simp [insert, h, h', ih]

theorem keys_insert (d : Dict V) (k : String) (v : V) (h : k ∉ keys d) :
    insert d k v = d ++ [(k, v)] := by
  induction d with
  | nil => rfl
  | cons p d ih =>
    simp only [keys_cons, List.mem_cons, not_or] at h
    simp [insert, Ne.symm h.1, ih h.2]

theorem mem_keys_insert (d : Dict V) (k k' : String) (v : V) :
    k' ∈ keys (insert d k v) ↔ k' = k ∨ k' ∈ keys d := by
  induction d with
  | nil => simp [insert, keys]
  | cons p d ih =>
    by_cases h : p.1 = k
    · subst h
      rw [insert, if_pos rfl]
      simp only [keys_cons, List.mem_cons]
      tauto
    · rw [insert, if_neg h]
      simp only [keys_cons, List.mem_cons, ih]
      tauto

theorem insert_ne_nil (d : Dict V) (k : String) (v : V) : insert d k v ≠ [] := by
  cases d with
  | nil => simp [insert]
  | cons p d =>
    rw [insert]
    by_cases h : p.1 = k <;> simp [h]

@[simp] theorem update_nil_right (d : Dict V) : update d [] = d := rfl

theorem update_cons (d : Dict V) (p : String × V) (e : Dict V) :
    update d (p :: e) = update (insert d p.1 p.2) e := rfl

theorem mem_keys_update (d e : Dict V) (k : String) :
    k ∈ keys (update d e) ↔ k ∈ keys d ∨ k ∈ keys e := by
  induction e generalizing d with
  | nil => simp
  | cons p e ih =>
    rw [update_cons, ih, mem_keys_insert]
    simp only [keys_cons, List.mem_cons]
    tauto

theorem update_ne_nil (d e : Dict V) (h : d ≠ []) : update d e ≠ [] := by
  induction e generalizing d with
  | nil => simpa
  | cons p e ih => exact update_cons d p e ▸ ih _ (insert_ne_nil d p.1 p.2)

theorem get?_update_of_not_mem (d e : Dict V) (k : String) :
    k ∉ keys e → get? k (update d e) = get? k d := by
  induction e generalizing d with
  | nil => intro _; rfl
  | cons p e ih =>
    intro h
    simp only [keys_cons, List.mem_cons, not_or] at h
    rw [update_cons, ih _ h.2, get?_insert, if_neg (fun hh => h.1 hh.symm)]

theorem get?_update_of_mem (d e : Dict V) (k : String) :
    NodupKeys e → k ∈ keys e → get? k (update d e) = get? k e := by
  induction e generalizing d with
  | nil => intro _ h; simp at h
  | cons p e ih =>
    intro hnd hk
    have hnd' := hnd
    rw [NodupKeys, keys_cons, List.nodup_cons] at hnd'
    rw [update_cons]
    by_cases h : p.1 = k
    · subst h
      rw [get?_update_of_not_mem _ _ _ hnd'.1, get?_insert, if_pos rfl, get?_cons, if_pos rfl]
    · have hk' : k ∈ keys e := by
        rcases List.mem_cons.mp (keys_cons p e ▸ hk) with h' | h'
        · exact absurd h'.symm h
        · exact h'
      rw [ih _ hnd'.2 hk', get?_cons, if_neg h]

theorem update_eq_append (d e : Dict V) :
    NodupKeys e → (∀ k ∈ keys e, k ∉ keys d) → update d e = d ++ e := by
  induction e generalizing d with
  | nil => intro _ _; simp
  | cons p e ih =>
    intro hnd hdisj
    have hnd' := hnd
    rw [NodupKeys, keys_cons, List.nodup_cons] at hnd'
    rw [update_cons, keys_insert d p.1 p.2 (hdisj p.1 (by simp)), ih _ hnd'.2, List.append_assoc]
    · rfl
    · intro k hk
      rw [keys_append]
      simp only [List.mem_append, keys_cons, keys_nil, List.mem_singleton, not_or]
      refine ⟨hdisj k (by simp [hk]), ?_⟩
      intro hkp
      exact hnd'.1 (hkp ▸ hk)

theorem ofList_self (l : Dict V) (h : NodupKeys l) : ofList l = l := by
  rw [ofList, update_eq_append _ _ h (by simp [keys])]
  rfl

theorem mem_keys_ofList (l : Dict V) (k : String) :
    k ∈ keys (ofList l) ↔ k ∈ keys l := by
  rw [ofList, mem_keys_update]
  simp [keys]

theorem ofList_eq_nil_iff (l : Dict V) : ofList l = [] ↔ l = [] := by
  constructor
  · intro h
    cases l with
    | nil => rfl
    | cons p l =>
      exact absurd h (update_ne_nil _ l (insert_ne_nil [] p.1 p.2))
  · intro h
    subst h
    rfl

end Dict

theorem isPre_append (l t : List Char) : isPre l (l ++ t) = true := by
  induction l with
  | nil => simp [isPre]
  | cons a l ih => simp [isPre, ih]

theorem eq_append_of_isPre {l m : List Char} (h : isPre l m = true) :
    m = l ++ m.drop l.length := by
  induction l generalizing m with
  | nil => simp
  | cons a l ih =>
    cases m with
    | nil => simp [isPre] at h
    | cons b m =>
      simp only [isPre, Bool.and_eq_true, beq_iff_eq] at h
      simpa [h.1] using ih h.2

theorem strStarts_append (p t : String) : strStarts (p ++ t) p = true := by
  simp [strStarts, String.data_append, isPre_append]

theorem strStrip_append (p t : String) : strStrip (p ++ t) p = t := by
  simp only [strStrip, strStarts_append, if_pos, String.data_append]
  cases t with
  | mk l => simp

theorem strStarts_iff (s p : String) : strStarts s p = true ↔ ∃ t, s = p ++ t := by
  constructor
  · intro h
    refine ⟨String.mk (s.data.drop p.data.length), ?_⟩
    apply String.ext
    simpa [String.data_append] using eq_append_of_isPre h
  · rintro ⟨t, rfl⟩
    exact strStarts_append p t

/-- Re-attaching a matched front piece after stripping it is the identity. -/
theorem strip_starts (s p : String) (h : strStarts s p = true) :
    s = p ++ strStrip s p := by
  rcases (strStarts_iff s p).mp h with ⟨t, rfl⟩
  rw [strStrip_append]

theorem string_append_left_cancel {p a b : String} (h : p ++ a = p ++ b) : a = b := by
  apply String.ext
  have := congrArg String.data h
  simpa [String.data_append] using this

theorem eq_of_strStrip_eq {p s t : String} (hs : strStarts s p = true)
    (ht : strStarts t p = true) (h : strStrip s p = strStrip t p) : s = t := by
  rw [strip_starts s p hs, strip_starts t p ht, h]

/-! ## Lemmas about the routing helpers -/

theorem Dict.eq_of_mem_of_nodup {V : Type} {l : Dict V} (h : Dict.NodupKeys l)
    {p q : String × V} (hp : p ∈ l) (hq : q ∈ l) (hk : p.1 = q.1) : p = q := by
  induction l with
  | nil => simp at hp
  | cons r l ih =>
    rw [Dict.NodupKeys, Dict.keys_cons, List.nodup_cons] at h
    rcases List.mem_cons.mp hp with hp' | hp' <;> rcases List.mem_cons.mp hq with hq' | hq'
    · rw [hp', hq']
    · exfalso
      apply h.1
      have hm : q.1 ∈ Dict.keys l := List.mem_map_of_mem Prod.fst hq'
      rwa [← hk, hp'] at hm
    · exfalso
      apply h.1
      have hm : p.1 ∈ Dict.keys l := List.mem_map_of_mem Prod.fst hp'
      rwa [hk, hq'] at hm
    · exact ih h.2 hp' hq'

theorem hasArmPre_iff {V : Type} (r : MultiSO101Follower V) (action : Dict V) :
    hasArmPre r action = true ↔
      ∃ n ∈ r.arm_names, ∃ q ∈ action, strStarts q.1 (n ++ "_") = true := by
  simp [hasArmPre, List.any_eq_true]

theorem nodup_strip_list {V : Type} (n : String) (action : Dict V)
    (h : Dict.NodupKeys action) :
    Dict.NodupKeys ((action.filter (fun q => strStarts q.1 (n ++ "_"))).map
      (fun q => (strStrip q.1 (n ++ "_"), q.2))) := by
  have hsub : List.Sublist (action.filter (fun q => strStarts q.1 (n ++ "_"))) action :=
    List.filter_sublist action
  have hkeys : ((action.filter (fun q => strStarts q.1 (n ++ "_"))).map Prod.fst).Nodup :=
    List.Nodup.sublist (List.Sublist.map Prod.fst hsub) h
  have hpairs : (action.filter (fun q => strStarts q.1 (n ++ "_"))).Nodup :=
    List.Nodup.of_map Prod.fst hkeys
  rw [Dict.NodupKeys, Dict.keys, List.map_map]
  refine List.Nodup.map_on ?_ hpairs
  intro x hx y hy hxy
  have hx' := List.mem_filter.mp hx
  have hy' := List.mem_filter.mp hy
  simp only [Function.comp] at hxy
  have hkey : x.1 = y.1 :=
    eq_of_strStrip_eq hx'.2 hy'.2 hxy
  exact Dict.eq_of_mem_of_nodup hkeys hx hy hkey

theorem armActionOf_eq {V : Type} (n : String) (action : Dict V)
    (h : Dict.NodupKeys action) :
    armActionOf n action = (action.filter (fun q => strStarts q.1 (n ++ "_"))).map
      (fun q => (strStrip q.1 (n ++ "_"), q.2)) :=
  Dict.ofList_self _ (nodup_strip_list n action h)

theorem nodup_armActionOf {V : Type} (n : String) (action : Dict V)
    (h : Dict.NodupKeys action) : Dict.NodupKeys (armActionOf n action) := by
  rw [armActionOf_eq n action h]
  exact nodup_strip_list n action h

theorem get?_armActionOf {V : Type} (n : String) (action : Dict V)
    (h : Dict.NodupKeys action) (k : String) :
    Dict.get? k (armActionOf n action) = Dict.get? (n ++ "_" ++ k) action := by
  rw [armActionOf_eq n action h]
  clear h
  induction action with
  | nil => rfl
  | cons q action ih =>
    by_cases hq : strStarts q.1 (n ++ "_") = true
    · rw [List.filter_cons, if_pos hq, List.map_cons]
      by_cases hk : strStrip q.1 (n ++ "_") = k
      · have hq1 : q.1 = n ++ "_" ++ k := by
          rw [strip_starts q.1 (n ++ "_") hq, hk]
        simp [hq1, hk, strStrip_append]
      · have hq1 : q.1 ≠ n ++ "_" ++ k := by
          intro hc
          exact hk (by rw [hc, strStrip_append])
        simp [hk, hq1, ih]
    · rw [List.filter_cons, if_neg hq]
      have hq1 : q.1 ≠ n ++ "_" ++ k := by
        intro hc
        rw [hc, strStarts_append] at hq
        exact hq rfl
      simp [hq1, ih]

theorem mem_keys_armActionOf {V : Type} (n : String) (action : Dict V) (k : String) :
    k ∈ Dict.keys (armActionOf n action) ↔ (n ++ "_" ++ k) ∈ Dict.keys action := by
  rw [armActionOf, Dict.mem_keys_ofList]
  simp only [Dict.keys, List.map_map, List.mem_map, Function.comp, List.mem_filter]
  constructor
  · rintro ⟨q, ⟨hqa, hφ⟩, rfl⟩
    exact ⟨q, hqa, strip_starts q.1 (n ++ "_") hφ⟩
  · rintro ⟨q, hqa, hq⟩
    refine ⟨q, ⟨hqa, ?_⟩, ?_⟩
    · rw [hq]
      exact strStarts_append (n ++ "_") k
    · rw [hq]
      exact strStrip_append (n ++ "_") k

theorem armActionOf_isEmpty_iff {V : Type} (n : String) (action : Dict V) :
    (armActionOf n action).isEmpty = true ↔
      ∀ q ∈ action, strStarts q.1 (n ++ "_") = false := by
  rw [List.isEmpty_iff, armActionOf, Dict.ofList_eq_nil_iff, List.map_eq_nil_iff,
    List.filter_eq_nil_iff]
  simp

theorem keys_map_withArm {V : Type} (n : String) (d : Dict V) :
    Dict.keys (d.map (fun q => (n ++ "_" ++ q.1, q.2))) =
      (Dict.keys d).map (fun k => n ++ "_" ++ k) := by
  simp [Dict.keys, List.map_map, Function.comp]

theorem withArmPre_eq {V : Type} (n : String) (d : Dict V) (h : Dict.NodupKeys d) :
    withArmPre n d = d.map (fun q => (n ++ "_" ++ q.1, q.2)) := by
  refine Dict.ofList_self _ ?_
  rw [Dict.NodupKeys, keys_map_withArm]
  exact h.map (fun a b hab => string_append_left_cancel hab)

theorem get?_withArmPre {V : Type} (n : String) (d : Dict V)
    (h : Dict.NodupKeys d) (k : String) :
    Dict.get? (n ++ "_" ++ k) (withArmPre n d) = Dict.get? k d := by
  rw [withArmPre_eq n d h]
  clear h
  induction d with
  | nil => rfl
  | cons q d ih =>
    by_cases hk : q.1 = k
    · simp [hk]
    · have : n ++ "_" ++ q.1 ≠ n ++ "_" ++ k :=
        fun hc => hk (string_append_left_cancel hc)
      simp [hk, this, ih]

theorem mem_keys_withArmPre {V : Type} (n : String) (d : Dict V) (K : String) :
    K ∈ Dict.keys (withArmPre n d) ↔ ∃ k ∈ Dict.keys d, K = n ++ "_" ++ k := by
  rw [withArmPre, Dict.mem_keys_ofList, keys_map_withArm]
  simp only [List.mem_map]
  constructor
  · rintro ⟨k, hk, rfl⟩
    exact ⟨k, hk, rfl⟩
  · rintro ⟨k, hk, rfl⟩
    exact ⟨k, hk, rfl⟩

theorem get?_withArmPre_of_no_match {V : Type} (n : String) (d : Dict V) (K : String)
    (h : strStarts K (n ++ "_") = false) :
    Dict.get? K (withArmPre n d) = none := by
  apply Dict.get?_eq_none_of_not_mem
  rw [mem_keys_withArmPre]
  rintro ⟨k, _, rfl⟩
  rw [strStarts_append] at h
  simp at h

theorem nodup_withArmPre {V : Type} (n : String) (d : Dict V) (h : Dict.NodupKeys d) :
    Dict.NodupKeys (withArmPre n d) := by
  rw [withArmPre_eq n d h, Dict.NodupKeys, keys_map_withArm]
  exact h.map (fun a b hab => string_append_left_cancel hab)

/-! ## Characterising the send_action folds -/

theorem directed_foldl {V : Type} (action : Dict V)
    (as : List (String × SO101Follower V)) (acc : Dict V × List (String × Dict V × Dict V)) :
    as.foldl (dStep action) acc = (unionPre acc.1 (dCalls as action), acc.2 ++ dCalls as action) := by
  induction as generalizing acc with
  | nil => cases acc; simp [dCalls, unionPre]
  | cons p as ih =>
    rw [List.foldl_cons, ih]
    by_cases he : (armActionOf p.1 action).isEmpty = true
    · have h1 : dStep action acc p = acc := by simp [dStep, he]
      have h2 : dCalls (p :: as) action = dCalls as action := by
        simp [dCalls, List.filterMap_cons, he]
      rw [h1, h2]
    · rw [Bool.not_eq_true] at he
      have h1 : dStep action acc p =
          (Dict.update acc.1 (withArmPre p.1 (p.2.sendAction (armActionOf p.1 action))),
           acc.2 ++ [(p.1, armActionOf p.1 action, p.2.sendAction (armActionOf p.1 action))]) := by
        simp [dStep, he]
      have h2 : dCalls (p :: as) action =
          (p.1, armActionOf p.1 action, p.2.sendAction (armActionOf p.1 action))
            :: dCalls as action := by
        simp [dCalls, List.filterMap_cons, he]
      rw [h1, h2]
      simp [unionPre, List.append_assoc]

theorem broadcast_foldl {V : Type} (action : Dict V)
    (as : List (String × SO101Follower V)) (acc : Dict V × List (String × Dict V × Dict V)) :
    as.foldl (bStep action) acc = (unionPre acc.1 (bCalls as action), acc.2 ++ bCalls as action) := by
  induction as generalizing acc with
  | nil => cases acc; simp [bCalls, unionPre]
  | cons p as ih =>
    rw [List.foldl_cons, ih]
    have h2 : bCalls (p :: as) action =
        (p.1, action, p.2.sendAction action) :: bCalls as action := by
      simp [bCalls]
    rw [h2]
    simp [bStep, unionPre, List.append_assoc]

theorem send_action_directed {V : Type} (r : MultiSO101Follower V) (action : Dict V)
    (hp : hasArmPre r action = true) :
    send_action r action = (unionPre [] (dCalls r.arms action), dCalls r.arms action) := by
  rw [send_action, if_pos hp, directed_foldl]
  simp

theorem send_action_broadcast {V : Type} (r : MultiSO101Follower V) (action : Dict V)
    (hp : hasArmPre r action = false) :
    send_action r action = (unionPre [] (bCalls r.arms action), bCalls r.arms action) := by
  rw [send_action, if_neg (by simp [hp]), broadcast_foldl]
  simp

theorem mem_keys_unionPre {V : Type} (K : String)
    (calls : List (String × Dict V × Dict V)) (acc : Dict V) :
    K ∈ Dict.keys (unionPre acc calls) →
      K ∈ Dict.keys acc ∨ ∃ c ∈ calls, K ∈ Dict.keys (withArmPre c.1 c.2.2) := by
  induction calls generalizing acc with
  | nil => exact fun h => Or.inl h
  | cons c calls ih =>
    intro h
    rcases ih _ h with h' | ⟨c', hc', hK⟩
    · rcases (Dict.mem_keys_update _ _ _).mp h' with h'' | h''
      · exact Or.inl h''
      · exact Or.inr ⟨c, List.mem_cons_self c calls, h''⟩
    · exact Or.inr ⟨c', List.mem_cons_of_mem c hc', hK⟩

theorem get?_unionPre_no_match {V : Type} (action : Dict V)
    (as : List (String × SO101Follower V)) (K : String) (acc : Dict V)
    (hnomatch : ∀ p ∈ as, strStarts K (p.1 ++ "_") = false) :
    Dict.get? K (unionPre acc (dCalls as action)) = Dict.get? K acc := by
  induction as generalizing acc with
  | nil => rfl
  | cons p as ih =>
    have hnm := hnomatch p (List.mem_cons_self p as)
    have ihn := fun acc => ih acc (fun q hq => hnomatch q (List.mem_cons_of_mem p hq))
    by_cases he : (armActionOf p.1 action).isEmpty = true
    · have h2 : dCalls (p :: as) action = dCalls as action := by
        simp [dCalls, List.filterMap_cons, he]
      rw [h2, ihn]
    · rw [Bool.not_eq_true] at he
      have h2 : dCalls (p :: as) action =
          (p.1, armActionOf p.1 action, p.2.sendAction (armActionOf p.1 action))
            :: dCalls as action := by
        simp [dCalls, List.filterMap_cons, he]
      rw [h2, unionPre, List.foldl_cons, ← unionPre, ihn]
      exact congrFun (congrArg Dict.get? rfl) _ ▸
        Dict.get?_update_of_not_mem acc _ K (by
          intro hmem
          rcases (mem_keys_withArmPre p.1 _ K).mp hmem with ⟨k, _, rfl⟩
          rw [strStarts_append] at hnm
          simp at hnm)

theorem get?_unionPre_not_key {V : Type} (action : Dict V)
    (as : List (String × SO101Follower V)) (K : String) (acc : Dict V)
    (hid : ∀ p ∈ as, ∀ d, p.2.sendAction d = d)
    (hK : K ∉ Dict.keys action) :
    Dict.get? K (unionPre acc (dCalls as action)) = Dict.get? K acc := by
  induction as generalizing acc with
  | nil => rfl
  | cons p as ih =>
    have hidp := hid p (List.mem_cons_self p as)
    have ihn := fun acc => ih acc (fun q hq => hid q (List.mem_cons_of_mem p hq))
    by_cases he : (armActionOf p.1 action).isEmpty = true
    · have h2 : dCalls (p :: as) action = dCalls as action := by
        simp [dCalls, List.filterMap_cons, he]
      rw [h2, ihn]
    · rw [Bool.not_eq_true] at he
      have h2 : dCalls (p :: as) action =
          (p.1, armActionOf p.1 action, p.2.sendAction (armActionOf p.1 action))
            :: dCalls as action := by
        simp [dCalls, List.filterMap_cons, he]
      rw [h2, unionPre, List.foldl_cons, ← unionPre, ihn, hidp]
      apply Dict.get?_update_of_not_mem
      intro hmem
      rcases (mem_keys_withArmPre p.1 _ K).mp hmem with ⟨k, hk, rfl⟩
      exact hK ((mem_keys_armActionOf p.1 action k).mp hk)

theorem get?_unionPre_key {V : Type} (action : Dict V)
    (as : List (String × SO101Follower V)) (K : String) (acc : Dict V)
    (hid : ∀ p ∈ as, ∀ d, p.2.sendAction d = d)
    (hnd : Dict.NodupKeys action)
    (hK : K ∈ Dict.keys action)
    (hmatch : ∃ p ∈ as, strStarts K (p.1 ++ "_") = true)
    (huniq : ∀ p ∈ as, ∀ q ∈ as,
      strStarts K (p.1 ++ "_") = true → strStarts K (q.1 ++ "_") = true → p = q) :
    Dict.get? K (unionPre acc (dCalls as action)) = Dict.get? K action := by
  induction as generalizing acc with
  | nil => simp at hmatch
  | cons p as ih =>
    have hidp := hid p (List.mem_cons_self p as)
    by_cases hs : strStarts K (p.1 ++ "_") = true
    · -- this arm matches K; its stripped dict contains the stripped key
      have hKdec : K = p.1 ++ "_" ++ strStrip K (p.1 ++ "_") := strip_starts K _ hs
      have hkaa : strStrip K (p.1 ++ "_") ∈ Dict.keys (armActionOf p.1 action) := by
        rw [mem_keys_armActionOf, ← hKdec]
        exact hK
      have he : (armActionOf p.1 action).isEmpty = false := by
        cases haa : armActionOf p.1 action with
        | nil => rw [haa] at hkaa; simp [Dict.keys] at hkaa
        | cons c l => rfl
      have h2 : dCalls (p :: as) action =
          (p.1, armActionOf p.1 action, p.2.sendAction (armActionOf p.1 action))
            :: dCalls as action := by
        simp [dCalls, List.filterMap_cons, he]
      rw [h2, unionPre, List.foldl_cons, ← unionPre, hidp]
      by_cases hrest : ∃ q ∈ as, strStarts K (q.1 ++ "_") = true
      · exact ih _ (fun q hq => hid q (List.mem_cons_of_mem p hq)) hrest
          (fun a ha b hb hsa hsb =>
            huniq a (List.mem_cons_of_mem p ha) b (List.mem_cons_of_mem p hb) hsa hsb)
      · push_neg at hrest
        rw [get?_unionPre_no_match action as K _
          (fun q hq => Bool.eq_false_iff.mpr (hrest q hq))]
        have hnodaa : Dict.NodupKeys (armActionOf p.1 action) :=
          nodup_armActionOf p.1 action hnd
        have hmem : K ∈ Dict.keys (withArmPre p.1 (armActionOf p.1 action)) := by
          rw [mem_keys_withArmPre]
          exact ⟨strStrip K (p.1 ++ "_"), hkaa, hKdec⟩
        rw [Dict.get?_update_of_mem _ _ _ (nodup_withArmPre _ _ hnodaa) hmem]
        calc Dict.get? K (withArmPre p.1 (armActionOf p.1 action))
            = Dict.get? (p.1 ++ "_" ++ strStrip K (p.1 ++ "_"))
                (withArmPre p.1 (armActionOf p.1 action)) := by rw [← hKdec]
          _ = Dict.get? (strStrip K (p.1 ++ "_")) (armActionOf p.1 action) :=
              get?_withArmPre p.1 _ hnodaa _
          _ = Dict.get? (p.1 ++ "_" ++ strStrip K (p.1 ++ "_")) action :=
              get?_armActionOf p.1 action hnd _
          _ = Dict.get? K action := by rw [← hKdec]
    · -- this arm does not match K: its contribution does not hold K
      have hmatch' : ∃ q ∈ as, strStarts K (q.1 ++ "_") = true := by
        rcases hmatch with ⟨q, hq, hsq⟩
        rcases List.mem_cons.mp hq with rfl | hq'
        · exact absurd hsq hs
        · exact ⟨q, hq', hsq⟩
      have ihn := fun acc => ih acc (fun q hq => hid q (List.mem_cons_of_mem p hq)) hmatch'
        (fun a ha b hb hsa hsb =>
          huniq a (List.mem_cons_of_mem p ha) b (List.mem_cons_of_mem p hb) hsa hsb)
      by_cases he : (armActionOf p.1 action).isEmpty = true
      · have h2 : dCalls (p :: as) action = dCalls as action := by
          simp [dCalls, List.filterMap_cons, he]
        rw [h2]
        exact ihn _
      · rw [Bool.not_eq_true] at he
        have h2 : dCalls (p :: as) action =
            (p.1, armActionOf p.1 action, p.2.sendAction (armActionOf p.1 action))
              :: dCalls as action := by
          simp [dCalls, List.filterMap_cons, he]
        rw [h2, unionPre, List.foldl_cons, ← unionPre]
        exact ihn _

theorem armActionOf_isEmpty_eq {V : Type} (n : String) (action : Dict V) :
    (armActionOf n action).isEmpty =
      !(action.any (fun q => strStarts q.1 (n ++ "_"))) := by
  cases hb : action.any (fun q => strStarts q.1 (n ++ "_")) with
  | false =>
    rw [Bool.not_false]
    refine (armActionOf_isEmpty_iff n action).mpr ?_
    intro q hq
    rcases Bool.eq_false_or_eq_true (strStarts q.1 (n ++ "_")) with h | h
    · exact absurd (List.any_eq_true.mpr ⟨q, hq, h⟩) (by rw [hb]; simp)
    · exact h
  | true =>
    rw [Bool.not_true]
    rcases List.any_eq_true.mp hb with ⟨q, hq, hs⟩
    refine Bool.eq_false_iff.mpr ?_
    intro he
    have := (armActionOf_isEmpty_iff n action).mp he q hq
    rw [hs] at this
    simp at this

theorem dCalls_eq_filterMap {V : Type} (as : List (String × SO101Follower V))
    (action : Dict V) :
    dCalls as action = as.filterMap (fun p =>
      if action.any (fun q => strStarts q.1 (p.1 ++ "_")) then
        some (p.1, armActionOf p.1 action, p.2.sendAction (armActionOf p.1 action))
      else none) := by
  induction as with
  | nil => rfl
  | cons p as ih =>
    rw [dCalls, List.filterMap_cons, List.filterMap_cons, armActionOf_isEmpty_eq, ← dCalls, ih]
    cases hb : action.any (fun q => strStarts q.1 (p.1 ++ "_")) <;> simp

/-! ## Claim theorems -/

/-- C1 (directed dispatch): when some action key begins with some arm's
prefix, `send_action` calls exactly those arms that have a matching key, in
arm order, each once; the dict passed to an arm holds exactly the matching
entries with the prefix stripped (extensionally, its lookup at `k` is the
action's lookup at `arm_name ++ "_" ++ k`); arms without a matching key are
not called; and the returned dict is the fold (union) of the calls' returned
dicts with each arm's prefix re-attached. -/
theorem send_action_directed_dispatch {V : Type} (r : MultiSO101Follower V)
    (action : Dict V) (hnd : Dict.NodupKeys action)
    (hp : ∃ n ∈ r.arm_names, ∃ q ∈ action, strStarts q.1 (n ++ "_") = true) :
    (send_action r action).2 = r.arms.filterMap (fun p =>
        if action.any (fun q => strStarts q.1 (p.1 ++ "_")) then
          some (p.1, armActionOf p.1 action, p.2.sendAction (armActionOf p.1 action))
        else none)
    ∧ (∀ c ∈ (send_action r action).2, ∀ k,
        Dict.get? k c.2.1 = Dict.get? (c.1 ++ "_" ++ k) action)
    ∧ (send_action r action).1 =
        ((send_action r action).2).foldl
          (fun d c => Dict.update d (withArmPre c.1 c.2.2)) [] := by
  have hp' : hasArmPre r action = true := (hasArmPre_iff r action).mpr hp
  rw [send_action_directed r action hp']
  refine ⟨dCalls_eq_filterMap r.arms action, ?_, rfl⟩
  intro c hc k
  rcases List.mem_filterMap.mp hc with ⟨p, _, hfc⟩
  by_cases he : (armActionOf p.1 action).isEmpty = true
  · rw [if_pos he] at hfc
    exact absurd hfc (by simp)
  · rw [if_neg he] at hfc
    obtain rfl : (p.1, armActionOf p.1 action, p.2.sendAction (armActionOf p.1 action)) = c :=
      Option.some.inj hfc
    exact get?_armActionOf p.1 action hnd k

/-- C1 witness: a two-arm device and an action holding one `arm1_`-matching
key and one unmatched key. -/
theorem send_action_directed_dispatch_witness :
    (Dict.NodupKeys [("arm1_j", 1), ("k", 2)] ∧
      ∃ n ∈ devW.arm_names, ∃ q ∈ ([("arm1_j", 1), ("k", 2)] : Dict Nat),
        strStarts q.1 (n ++ "_") = true) ∧
    ((send_action devW [("arm1_j", 1), ("k", 2)]).2 = devW.arms.filterMap (fun p =>
        if ([("arm1_j", 1), ("k", 2)] : Dict Nat).any
            (fun q => strStarts q.1 (p.1 ++ "_")) then
          some (p.1, armActionOf p.1 [("arm1_j", 1), ("k", 2)],
            p.2.sendAction (armActionOf p.1 [("arm1_j", 1), ("k", 2)]))
        else none)
    ∧ (∀ c ∈ (send_action devW [("arm1_j", 1), ("k", 2)]).2, ∀ k,
        Dict.get? k c.2.1 = Dict.get? (c.1 ++ "_" ++ k) [("arm1_j", 1), ("k", 2)])
    ∧ (send_action devW [("arm1_j", 1), ("k", 2)]).1 =
        ((send_action devW [("arm1_j", 1), ("k", 2)]).2).foldl
          (fun d c => Dict.update d (withArmPre c.1 c.2.2)) []) :=
  ⟨⟨by decide, by decide⟩,
    send_action_directed_dispatch devW [("arm1_j", 1), ("k", 2)] (by decide) (by decide)⟩

/-- C2 (broadcast dispatch): when no action key begins with any arm's
prefix, `send_action` passes the whole action dict unchanged to every arm,
in arm order, each once, and returns the fold (union) of the arms' returned
dicts with each arm's prefix attached. -/
theorem send_action_broadcast_dispatch {V : Type} (r : MultiSO101Follower V)
    (action : Dict V)
    (hb : ∀ n ∈ r.arm_names, ∀ q ∈ action, strStarts q.1 (n ++ "_") = false) :
    (send_action r action).2 = r.arms.map (fun p => (p.1, action, p.2.sendAction action))
    ∧ (send_action r action).1 =
        ((send_action r action).2).foldl
          (fun d c => Dict.update d (withArmPre c.1 c.2.2)) [] := by
  have hp' : hasArmPre r action = false := by
    refine Bool.eq_false_iff.mpr ?_
    intro h
    rcases (hasArmPre_iff r action).mp h with ⟨n, hn, q, hq, hs⟩
    have := hb n hn q hq
    rw [hs] at this
    simp at this
  rw [send_action_broadcast r action hp']
  exact ⟨rfl, rfl⟩

/-- C2 witness: the same device with an action whose keys match no arm. -/
theorem send_action_broadcast_dispatch_witness :
    (∀ n ∈ devW.arm_names, ∀ q ∈ ([("j", 1), ("k", 2)] : Dict Nat),
        strStarts q.1 (n ++ "_") = false) ∧
    ((send_action devW [("j", 1), ("k", 2)]).2 =
        devW.arms.map (fun p => (p.1, [("j", 1), ("k", 2)],
          p.2.sendAction [("j", 1), ("k", 2)]))
    ∧ (send_action devW [("j", 1), ("k", 2)]).1 =
        ((send_action devW [("j", 1), ("k", 2)]).2).foldl
          (fun d c => Dict.update d (withArmPre c.1 c.2.2)) []) :=
  ⟨by decide, send_action_broadcast_dispatch devW [("j", 1), ("k", 2)] (by decide)⟩

/-- C9 (silent key dropping in directed mode): in the directed branch, an
action key `k0` that begins with no arm's prefix contributes to no sub-arm
call (no key of any dict passed to an arm re-prefixes to `k0`), is absent
from the returned dict, and no error is raised (the embedded `send_action`
is total). -/
theorem send_action_directed_drops {V : Type} (r : MultiSO101Follower V)
    (action : Dict V) (k0 : String)
    (hinv : r.arm_names = r.arms.map Prod.fst)
    (hp : ∃ n ∈ r.arm_names, ∃ q ∈ action, strStarts q.1 (n ++ "_") = true)
    (hk : k0 ∈ Dict.keys action)
    (hnm : ∀ n ∈ r.arm_names, strStarts k0 (n ++ "_") = false) :
    (∀ c ∈ (send_action r action).2, ∀ k ∈ Dict.keys c.2.1, c.1 ++ "_" ++ k ≠ k0)
    ∧ Dict.get? k0 (send_action r action).1 = none := by
  have hp' : hasArmPre r action = true := (hasArmPre_iff r action).mpr hp
  have harmname : ∀ c ∈ dCalls r.arms action, c.1 ∈ r.arm_names := by
    intro c hc
    rcases List.mem_filterMap.mp hc with ⟨p, hpmem, hfc⟩
    by_cases he : (armActionOf p.1 action).isEmpty = true
    · rw [if_pos he] at hfc
      exact absurd hfc (by simp)
    · rw [if_neg he] at hfc
      obtain rfl : (p.1, armActionOf p.1 action,
          p.2.sendAction (armActionOf p.1 action)) = c := Option.some.inj hfc
      rw [hinv]
      exact List.mem_map_of_mem Prod.fst hpmem
  rw [send_action_directed r action hp']
  constructor
  · intro c hc k _ he0
    have := hnm c.1 (harmname c hc)
    rw [← he0, strStarts_append] at this
    simp at this
  · apply Dict.get?_eq_none_of_not_mem
    intro hmem
    rcases mem_keys_unionPre k0 _ [] hmem with h | ⟨c, hc, hkc⟩
    · simp [Dict.keys] at h
    · rcases (mem_keys_withArmPre _ _ _).mp hkc with ⟨k, _, rfl⟩
      have := hnm c.1 (harmname c hc)
      rw [strStarts_append] at this
      simp at this

/-- C9 witness: the unmatched key "k" is dropped by the directed branch. -/
theorem send_action_directed_drops_witness :
    (devW.arm_names = devW.arms.map Prod.fst ∧
      (∃ n ∈ devW.arm_names, ∃ q ∈ ([("arm1_j", 1), ("k", 2)] : Dict Nat),
        strStarts q.1 (n ++ "_") = true) ∧
      "k" ∈ Dict.keys ([("arm1_j", 1), ("k", 2)] : Dict Nat) ∧
      (∀ n ∈ devW.arm_names, strStarts "k" (n ++ "_") = false)) ∧
    ((∀ c ∈ (send_action devW [("arm1_j", 1), ("k", 2)]).2,
        ∀ k ∈ Dict.keys c.2.1, c.1 ++ "_" ++ k ≠ "k")
    ∧ Dict.get? "k" (send_action devW [("arm1_j", 1), ("k", 2)]).1 = none) :=
  ⟨⟨by decide, by decide, by decide, by decide⟩,
    send_action_directed_drops devW [("arm1_j", 1), ("k", 2)] "k"
      (by decide) (by decide) (by decide) (by decide)⟩

/-- C10 (strip/re-prefix round trip): when every sub-arm's `send_action`
echoes its input and every action key begins with exactly one arm's prefix,
the multi-arm `send_action` returns a dict equal (as a Python dict, order
ignored) to its input. -/
theorem send_action_round_trip {V : Type} (r : MultiSO101Follower V) (action : Dict V)
    (hinv : r.arm_names = r.arms.map Prod.fst)
    (hnames : (r.arms.map Prod.fst).Nodup)
    (hnd : Dict.NodupKeys action)
    (hid : ∀ p ∈ r.arms, ∀ d, p.2.sendAction d = d)
    (hexact : ∀ k ∈ Dict.keys action, ∃ n ∈ r.arm_names,
      strStarts k (n ++ "_") = true ∧
      ∀ m ∈ r.arm_names, strStarts k (m ++ "_") = true → m = n) :
    Dict.equiv (send_action r action).1 action := by
  by_cases hp : hasArmPre r action = true
  · rw [send_action_directed r action hp]
    intro K
    by_cases hK : K ∈ Dict.keys action
    · rcases hexact K hK with ⟨n, hn, hs, huni⟩
      rcases List.mem_map.mp (hinv ▸ hn) with ⟨p, hpm, rfl⟩
      have huniq : ∀ a ∈ r.arms, ∀ b ∈ r.arms,
          strStarts K (a.1 ++ "_") = true → strStarts K (b.1 ++ "_") = true → a = b := by
        intro a ha b hb hsa hsb
        have hna : a.1 ∈ r.arm_names := hinv ▸ List.mem_map_of_mem Prod.fst ha
        have hnb : b.1 ∈ r.arm_names := hinv ▸ List.mem_map_of_mem Prod.fst hb
        exact Dict.eq_of_mem_of_nodup hnames ha hb
          ((huni a.1 hna hsa).trans (huni b.1 hnb hsb).symm)
      exact get?_unionPre_key action r.arms K [] hid hnd hK ⟨p, hpm, hs⟩ huniq
    · rw [Dict.get?_eq_none_of_not_mem hK]
      exact get?_unionPre_not_key action r.arms K [] hid hK
  · have ha : action = [] := by
      cases haction : action with
      | nil => rfl
      | cons q l =>
        exfalso
        rcases hexact q.1 (by rw [haction]; exact List.mem_cons_self _ _) with ⟨n, hn, hs, _⟩
        exact hp ((hasArmPre_iff r action).mpr
          ⟨n, hn, q, by rw [haction]; exact List.mem_cons_self q l, hs⟩)
    subst ha
    rw [send_action_broadcast r [] (Bool.eq_false_iff.mpr hp)]
    have hnil : ∀ as : List (String × SO101Follower V),
        (∀ p ∈ as, ∀ d, p.2.sendAction d = d) →
        ∀ acc : Dict V, unionPre acc (bCalls as ([] : Dict V)) = acc := by
      intro as
      induction as with
      | nil => intro _ acc; rfl
      | cons p as ih =>
        intro hid' acc
        have h1 : p.2.sendAction ([] : Dict V) = [] :=
          hid' p (List.mem_cons_self p as) []
        have h2 : unionPre acc (bCalls (p :: as) ([] : Dict V)) =
            unionPre (Dict.update acc (withArmPre p.1 (p.2.sendAction []))) (bCalls as []) := rfl
        rw [h2, h1]
        exact ih (fun q hq => hid' q (List.mem_cons_of_mem p hq)) acc
    intro K
    rw [hnil r.arms hid []]

/-- C10 witness: a fully prefixed action on the identity-echo device comes
back unchanged. -/
theorem send_action_round_trip_witness :
    (devW.arm_names = devW.arms.map Prod.fst ∧
      (devW.arms.map Prod.fst).Nodup ∧
      Dict.NodupKeys ([("arm1_a", 3), ("arm2_b", 4)] : Dict Nat) ∧
      (∀ k ∈ Dict.keys ([("arm1_a", 3), ("arm2_b", 4)] : Dict Nat),
        ∃ n ∈ devW.arm_names, strStarts k (n ++ "_") = true ∧
          ∀ m ∈ devW.arm_names, strStarts k (m ++ "_") = true → m = n)) ∧
    Dict.equiv (send_action devW [("arm1_a", 3), ("arm2_b", 4)]).1
      [("arm1_a", 3), ("arm2_b", 4)] :=
  ⟨⟨by decide, by decide, by decide, by decide⟩,
    send_action_round_trip devW [("arm1_a", 3), ("arm2_b", 4)]
      (by decide) (by decide) (by decide)
      (by
        intro p hp d
        rcases List.mem_cons.mp hp with rfl | hp'
        · rfl
        · rcases List.mem_cons.mp hp' with rfl | hp''
          · rfl
          · simp at hp'')
      (by decide)⟩

/-- C3 (arm naming): for a non-empty port list of length N, construction
succeeds and creates arms named `arm1` .. `armN` in order; the i-th arm
(0-based index i, name `arm(i+1)`) is built from the config holding the i-th
port; `arm_names` lists the names in the same order as `arms`. -/
theorem init_arm_naming {V : Type} (mkArm : SO101FollowerConfig → SO101Follower V)
    (mkCameras : Dict CameraConfig → List (String × Camera V))
    (config : MultiSO101FollowerConfig) (h : config.arm_ports ≠ []) :
    ∃ ro, init mkArm mkCameras config = Except.ok ro ∧
      ro.arm_names = (List.range config.arm_ports.length).map (fun i => armName (i + 1)) ∧
      ro.arms.map Prod.fst = ro.arm_names ∧
      ro.arms.length = config.arm_ports.length ∧
      (∀ i port, config.arm_ports[i]? = some port →
        ro.arms[i]? = some (armName (i + 1), mkArm (armConfig config (i + 1) port))) := by
  have hne : config.arm_ports.isEmpty = false :=
    Bool.eq_false_iff.mpr (fun hh => h (List.isEmpty_iff.mp hh))
  rw [init, if_neg (by simp [hne])]
  refine ⟨_, rfl, ?_, ?_, ?_, ?_⟩
  · apply List.ext_getElem?
    intro i
    rw [List.getElem?_map, List.getElem?_enum, List.getElem?_map]
    by_cases hlt : i < config.arm_ports.length
    · rw [List.getElem?_eq_getElem hlt, List.getElem?_range hlt]
      rfl
    · rw [List.getElem?_eq_none (Nat.le_of_not_lt hlt),
        List.getElem?_eq_none (by simpa using Nat.le_of_not_lt hlt)]
      rfl
  · simp [List.map_map, Function.comp]
  · simp
  · intro i port hport
    rw [List.getElem?_map, List.getElem?_enum, hport]
    rfl

/-- C3 witness: a two-port config yields arms `arm1`, `arm2` with the
matching ports. -/
theorem init_arm_naming_witness :
    (cfg2.arm_ports ≠ []) ∧
    (∃ ro, init mkArmW mkCamsW cfg2 = Except.ok ro ∧
      ro.arm_names = (List.range cfg2.arm_ports.length).map (fun i => armName (i + 1)) ∧
      ro.arms.map Prod.fst = ro.arm_names ∧
      ro.arms.length = cfg2.arm_ports.length ∧
      (∀ i port, cfg2.arm_ports[i]? = some port →
        ro.arms[i]? = some (armName (i + 1), mkArmW (armConfig cfg2 (i + 1) port)))) :=
  ⟨by decide, init_arm_naming mkArmW mkCamsW cfg2 (by decide)⟩

/-- C8 (construction precondition): with an empty `arm_ports` list the
constructor raises `ValueError` — and does so independently of the sub-arm
and camera constructors, i.e. before any sub-device is created; every
successfully constructed instance has at least one arm. -/
theorem init_empty_ports {V : Type} (mkArm : SO101FollowerConfig → SO101Follower V)
    (mkCameras : Dict CameraConfig → List (String × Camera V))
    (config : MultiSO101FollowerConfig) :
    (config.arm_ports = [] →
      init mkArm mkCameras config =
        Except.error "arm_ports must contain at least one port" ∧
      ∀ (mkArm' : SO101FollowerConfig → SO101Follower V)
        (mkCameras' : Dict CameraConfig → List (String × Camera V)),
        init mkArm' mkCameras' config = init mkArm mkCameras config)
    ∧ (∀ ro, init mkArm mkCameras config = Except.ok ro →
        ro.arms ≠ [] ∧ ro.arm_names ≠ []) := by
  constructor
  · intro he
    have hempty : config.arm_ports.isEmpty = true := List.isEmpty_iff.mpr he
    refine ⟨by rw [init, if_pos hempty], ?_⟩
    intro mkArm' mkCameras'
    rw [init, if_pos hempty, init, if_pos hempty]
  · intro ro hro
    by_cases he : config.arm_ports.isEmpty = true
    · rw [init, if_pos he] at hro
      simp at hro
    · rw [init, if_neg he] at hro
      obtain rfl := Except.ok.inj hro
      rw [Bool.not_eq_true, Bool.eq_false_iff] at he
      have hports : config.arm_ports ≠ [] := fun hh => he (List.isEmpty_iff.mpr hh)
      constructor
      · intro hnil
        exact hports (List.enum_eq_nil.mp (List.map_eq_nil_iff.mp hnil))
      · intro hnil
        exact hports (List.enum_eq_nil.mp (List.map_eq_nil_iff.mp hnil))

/-- C8 witness: the empty-port config raises, and a successful construction
has a non-empty arm list. -/
theorem init_empty_ports_witness :
    (cfgEmpty.arm_ports = [] ∧
      init mkArmW mkCamsW cfgEmpty =
        Except.error "arm_ports must contain at least one port") ∧
    (init mkArmW mkCamsW cfg2 = Except.ok (MultiSO101Follower.mk
        (cfg2.arm_ports.enum.map
          (fun p => (armName (p.1 + 1), mkArmW (armConfig cfg2 (p.1 + 1) p.2))))
        (cfg2.arm_ports.enum.map (fun p => armName (p.1 + 1)))
        (mkCamsW cfg2.cameras) cfg2.cameras none none) ∧
      (cfg2.arm_ports.enum.map
          (fun p => (armName (p.1 + 1), mkArmW (armConfig cfg2 (p.1 + 1) p.2)))) ≠ []) :=
  ⟨⟨rfl, ((init_empty_ports mkArmW mkCamsW cfgEmpty).1 rfl).1⟩,
    ⟨rfl, (((init_empty_ports mkArmW mkCamsW cfg2).2 _ rfl).1)⟩⟩

theorem nodupKeys_append_parts {V : Type} {x y : Dict V}
    (h : Dict.NodupKeys (x ++ y)) :
    Dict.NodupKeys x ∧ Dict.NodupKeys y ∧ ∀ k ∈ Dict.keys y, k ∉ Dict.keys x := by
  rw [Dict.NodupKeys, Dict.keys_append, List.nodup_append] at h
  exact ⟨h.1, h.2.1, fun k hy hx => h.2.2 hx hy⟩

theorem foldl_update_flatMap {V α : Type} (f : α → Dict V) :
    ∀ (as : List α) (acc : Dict V), Dict.NodupKeys (acc ++ as.flatMap f) →
      as.foldl (fun acc p => Dict.update acc (Dict.ofList (f p))) acc =
        acc ++ as.flatMap f := by
  intro as
  induction as with
  | nil => intro acc _; simp
  | cons p as ih =>
    intro acc hnd
    rw [List.flatMap_cons, ← List.append_assoc] at hnd
    have hparts := nodupKeys_append_parts (x := acc ++ f p)
      (y := as.flatMap f) hnd
    have hsub := nodupKeys_append_parts hparts.1
    rw [List.foldl_cons, Dict.ofList_self (f p) hsub.2.1,
      Dict.update_eq_append acc (f p) hsub.2.1 hsub.2.2,
      List.flatMap_cons, ← List.append_assoc]
    exact ih (acc ++ f p) hnd

theorem foldl_insert_eq_append {V α : Type} (key : α → String) (val : α → V) :
    ∀ (cs : List α) (acc : Dict V),
      Dict.NodupKeys (acc ++ cs.map (fun c => (key c, val c))) →
      cs.foldl (fun acc c => Dict.insert acc (key c) (val c)) acc =
        acc ++ cs.map (fun c => (key c, val c)) := by
  intro cs
  induction cs with
  | nil => intro acc _; simp
  | cons c cs ih =>
    intro acc hnd
    rw [List.map_cons] at hnd
    have hnd' : Dict.NodupKeys ((acc ++ [(key c, val c)]) ++ cs.map (fun c => (key c, val c))) := by
      rwa [List.append_assoc, List.singleton_append]
    have hparts := nodupKeys_append_parts (nodupKeys_append_parts hnd').1
    rw [List.foldl_cons, Dict.keys_insert acc (key c) (val c)
      (hparts.2.2 (key c) (by simp [Dict.keys])), List.map_cons,
      ih (acc ++ [(key c, val c)]) hnd']
    simp

/-- C4 counterexample: on the connected device `devC4` the camera named
`"arm1_x"` overwrites the arm observation entry prefixed to the same key, so
the returned dict does not hold the arm's value for it. -/
theorem get_observation_counterexample :
    is_connected devC4 = true ∧
    ¬ (∀ p ∈ devC4.arms, ∀ q ∈ p.2.observation,
        Dict.get? (p.1 ++ "_" ++ q.1) (get_observation devC4) = some q.2) := by
  constructor
  · decide
  · intro h
    have := h ("arm1", obsArm) (by simp [devC4]) ("x", 0) (by decide)
    revert this
    decide

/-- C4 amended: for every connected device whose prefixed arm-observation
keys and camera keys are pairwise distinct, `get_observation` returns
exactly the arm entries under `f"{arm_name}_{key}"`, in arm order, followed
by one entry per camera under the camera's own key, and nothing else; when a
camera key collides with a prefixed arm key, the camera frame overwrites the
arm's value. -/
theorem get_observation_exact {V : Type} (r : MultiSO101Follower V)
    (_hconn : is_connected r = true)
    (hnd : Dict.NodupKeys (expected_observation r)) :
    get_observation r = expected_observation r := by
  rw [expected_observation] at hnd
  have h1 := foldl_update_flatMap
    (fun p => p.2.observation.map (fun q => (p.1 ++ "_" ++ q.1, q.2)))
    r.arms []
    (by simpa using (nodupKeys_append_parts hnd).1)
  have h2 := foldl_insert_eq_append (fun c : String × Camera V => c.1)
    (fun c => c.2.frame) r.cameras
    (r.arms.flatMap (fun p => p.2.observation.map (fun q => (p.1 ++ "_" ++ q.1, q.2))))
    hnd
  simp only [get_observation]
  rw [List.nil_append] at h1
  rw [h1, h2, expected_observation]

/-- C4 amended witness: on the collision-free device `devW` the observation
dict is exactly the prefixed arm entries followed by the camera frame. -/
theorem get_observation_exact_witness :
    (is_connected devW = true ∧ Dict.NodupKeys (expected_observation devW)) ∧
    get_observation devW = expected_observation devW :=
  ⟨⟨by decide, by decide⟩, get_observation_exact devW (by decide) (by decide)⟩

/-- C5 counterexample: access `observation_features` once, then change a
sub-arm's motor table (the bus belongs to the opaque collaborator); the next
access returns the stored dict, not the merge of `_motors_ft` and
`_cameras_ft` at the moment of the call — `cached_property` stores the
result across calls. -/
theorem features_no_caching_counterexample :
    (observation_features
        (setArmMotors (observation_features devW).2 "arm1" ["k"])).1 ≠
      Dict.update
        (motors_ft (setArmMotors (observation_features devW).2 "arm1" ["k"]))
        (cameras_ft (setArmMotors (observation_features devW).2 "arm1" ["k"])) := by
  decide

/-- C5 amended: `observation_features` and `action_features` are
`cached_property` values: an access returns the cached dict when one is
stored and otherwise computes `{**_motors_ft, **_cameras_ft}`
(resp. `_motors_ft`) and stores it; after an access, a later access returns
the same dict even if a sub-arm's motor table has changed in between.  The
plain properties `_motors_ft` and `_cameras_ft` themselves are recomputed on
every access. -/
theorem features_cached {V : Type} (r : MultiSO101Follower V) :
    ((observation_features r).1 =
        r.obs_features_cache.getD (Dict.update (motors_ft r) (cameras_ft r))) ∧
    ((observation_features r).2.obs_features_cache = some (observation_features r).1) ∧
    ((action_features r).1 = r.act_features_cache.getD (motors_ft r)) ∧
    ((action_features r).2.act_features_cache = some (action_features r).1) ∧
    (∀ n ms, (observation_features
        (setArmMotors (observation_features r).2 n ms)).1 = (observation_features r).1) ∧
    (∀ n ms, (action_features
        (setArmMotors (action_features r).2 n ms)).1 = (action_features r).1) := by
  cases hobs : r.obs_features_cache with
  | none =>
    cases hact : r.act_features_cache with
    | none =>
      refine ⟨?_, ?_, ?_, ?_, ?_, ?_⟩ <;>
        simp [observation_features, action_features, setArmMotors, hobs, hact]
    | some v =>
      refine ⟨?_, ?_, ?_, ?_, ?_, ?_⟩ <;>
        simp [observation_features, action_features, setArmMotors, hobs, hact]
  | some v =>
    cases hact : r.act_features_cache with
    | none =>
      refine ⟨?_, ?_, ?_, ?_, ?_, ?_⟩ <;>
        simp [observation_features, action_features, setArmMotors, hobs, hact]
    | some w =>
      refine ⟨?_, ?_, ?_, ?_, ?_, ?_⟩ <;>
        simp [observation_features, action_features, setArmMotors, hobs, hact]

/-! ## Lifecycle lemmas -/

theorem connectArms_ok {V : Type} (cal : Bool) :
    ∀ as : List (String × SO101Follower V),
      (∀ p ∈ as, p.2.connectOutcome cal = Except.ok ()) →
      connectArms as cal =
        (Except.ok (), as.map (fun p => LifeEvent.armConnect p.1 cal)) := by
  intro as
  induction as with
  | nil => intro _; rfl
  | cons p as ih =>
    intro hok
    have h1 := hok p (List.mem_cons_self p as)
    simp [connectArms, h1, ih (fun q hq => hok q (List.mem_cons_of_mem p hq))]

theorem connectCams_ok {V : Type} :
    ∀ cs : List (String × Camera V),
      (∀ c ∈ cs, c.2.connectOutcome = Except.ok ()) →
      connectCams cs = (Except.ok (), cs.map (fun c => LifeEvent.camConnect c.1)) := by
  intro cs
  induction cs with
  | nil => intro _; rfl
  | cons c cs ih =>
    intro hok
    have h1 := hok c (List.mem_cons_self c cs)
    simp [connectCams, h1, ih (fun d hd => hok d (List.mem_cons_of_mem c hd))]

theorem connectArms_fail {V : Type} (cal : Bool) (n : String) (a : SO101Follower V)
    (post : List (String × SO101Follower V)) (e : String)
    (hfail : a.connectOutcome cal = Except.error e) :
    ∀ pre : List (String × SO101Follower V),
      (∀ p ∈ pre, p.2.connectOutcome cal = Except.ok ()) →
      connectArms (pre ++ (n, a) :: post) cal =
        (Except.error e,
          pre.map (fun p => LifeEvent.armConnect p.1 cal) ++ [LifeEvent.armConnect n cal]) := by
  intro pre
  induction pre with
  | nil => intro _; simp [connectArms, hfail]
  | cons p pre ih =>
    intro hok
    have h1 := hok p (List.mem_cons_self p pre)
    simp [connectArms, h1, ih (fun q hq => hok q (List.mem_cons_of_mem p hq))]

theorem connectCams_fail {V : Type} (n : String) (c : Camera V)
    (post : List (String × Camera V)) (e : String)
    (hfail : c.connectOutcome = Except.error e) :
    ∀ pre : List (String × Camera V),
      (∀ d ∈ pre, d.2.connectOutcome = Except.ok ()) →
      connectCams (pre ++ (n, c) :: post) =
        (Except.error e,
          pre.map (fun d => LifeEvent.camConnect d.1) ++ [LifeEvent.camConnect n]) := by
  intro pre
  induction pre with
  | nil => intro _; simp [connectCams, hfail]
  | cons d pre ih =>
    intro hok
    have h1 := hok d (List.mem_cons_self d pre)
    simp [connectCams, h1, ih (fun q hq => hok q (List.mem_cons_of_mem d hq))]

theorem count_map_name {V β : Type} [DecidableEq β] (g : String → β)
    (hg : Function.Injective g) (as : List (String × V)) (n : String) :
    (as.map (fun p => g p.1)).count (g n) = (as.map Prod.fst).count n := by
  induction as with
  | nil => rfl
  | cons p as ih => simp [List.count_cons, ih, hg.eq_iff]

theorem count_armConnect {V : Type} (cal : Bool) (as : List (String × V)) (n : String) :
    (as.map (fun p => LifeEvent.armConnect p.1 cal)).count (LifeEvent.armConnect n cal)
      = (as.map Prod.fst).count n := by
  induction as with
  | nil => rfl
  | cons p as ih => simp [List.count_cons, ih]

theorem count_camConnect {V : Type} (cs : List (String × V)) (n : String) :
    (cs.map (fun c => LifeEvent.camConnect c.1)).count (LifeEvent.camConnect n)
      = (cs.map Prod.fst).count n := by
  induction cs with
  | nil => rfl
  | cons c cs ih => simp [List.count_cons, ih]

theorem count_armCalibrate {V : Type} (as : List (String × V)) (n : String) :
    (as.map (fun p => LifeEvent.armCalibrate p.1)).count (LifeEvent.armCalibrate n)
      = (as.map Prod.fst).count n := by
  induction as with
  | nil => rfl
  | cons p as ih => simp [List.count_cons, ih]

theorem count_armConfigure {V : Type} (as : List (String × V)) (n : String) :
    (as.map (fun p => LifeEvent.armConfigure p.1)).count (LifeEvent.armConfigure n)
      = (as.map Prod.fst).count n := by
  induction as with
  | nil => rfl
  | cons p as ih => simp [List.count_cons, ih]

theorem count_armDisconnect {V : Type} (as : List (String × V)) (n : String) :
    (as.map (fun p => LifeEvent.armDisconnect p.1)).count (LifeEvent.armDisconnect n)
      = (as.map Prod.fst).count n := by
  induction as with
  | nil => rfl
  | cons p as ih => simp [List.count_cons, ih]

theorem count_camDisconnect {V : Type} (cs : List (String × V)) (n : String) :
    (cs.map (fun c => LifeEvent.camDisconnect c.1)).count (LifeEvent.camDisconnect n)
      = (cs.map Prod.fst).count n := by
  induction cs with
  | nil => rfl
  | cons c cs ih => simp [List.count_cons, ih]

/-- C6 (lifecycle fan-out): when every sub-device connects cleanly,
`connect` visits every arm in arm order and then every camera, returning
normally; `calibrate` and `configure` call the same-named operation on every
arm in order; `disconnect` visits every arm and then every camera; and with
distinct names every sub-device is visited exactly once by each
operation. -/
theorem lifecycle_fanout {V : Type} (r : MultiSO101Follower V) (cal : Bool)
    (hok : ∀ p ∈ r.arms, p.2.connectOutcome cal = Except.ok ())
    (hcok : ∀ c ∈ r.cameras, c.2.connectOutcome = Except.ok ())
    (hnames : (r.arms.map Prod.fst).Nodup)
    (hcnames : (r.cameras.map Prod.fst).Nodup) :
    (connect r cal).1 = Except.ok () ∧
    (connect r cal).2 = r.arms.map (fun p => LifeEvent.armConnect p.1 cal)
        ++ r.cameras.map (fun c => LifeEvent.camConnect c.1) ∧
    calibrate r = r.arms.map (fun p => LifeEvent.armCalibrate p.1) ∧
    configure r = r.arms.map (fun p => LifeEvent.armConfigure p.1) ∧
    disconnect r = r.arms.map (fun p => LifeEvent.armDisconnect p.1)
        ++ r.cameras.map (fun c => LifeEvent.camDisconnect c.1) ∧
    (∀ n ∈ r.arms.map Prod.fst,
      (connect r cal).2.count (LifeEvent.armConnect n cal) = 1 ∧
      (calibrate r).count (LifeEvent.armCalibrate n) = 1 ∧
      (configure r).count (LifeEvent.armConfigure n) = 1 ∧
      (disconnect r).count (LifeEvent.armDisconnect n) = 1) ∧
    (∀ n ∈ r.cameras.map Prod.fst,
      (connect r cal).2.count (LifeEvent.camConnect n) = 1 ∧
      (disconnect r).count (LifeEvent.camDisconnect n) = 1) := by
  have hconn : connect r cal =
      (Except.ok (), r.arms.map (fun p => LifeEvent.armConnect p.1 cal)
        ++ r.cameras.map (fun c => LifeEvent.camConnect c.1)) := by
    simp [connect, connectArms_ok cal r.arms hok, connectCams_ok r.cameras hcok]
  refine ⟨by rw [hconn], by rw [hconn], rfl, rfl, rfl, ?_, ?_⟩
  · intro n hn
    have h1 : (r.arms.map Prod.fst).count n = 1 := List.count_eq_one_of_mem hnames hn
    have hzero : (r.cameras.map (fun c => LifeEvent.camConnect c.1)).count
        (LifeEvent.armConnect n cal) = 0 :=
      List.count_eq_zero.mpr (by
        intro hm
        rcases List.mem_map.mp hm with ⟨c, _, hc⟩
        exact LifeEvent.noConfusion hc)
    refine ⟨?_, ?_, ?_, ?_⟩
    · rw [hconn]
      rw [List.count_append, hzero, Nat.add_zero, count_armConnect, h1]
    · rw [calibrate, count_armCalibrate, h1]
    · rw [configure, count_armConfigure, h1]
    · rw [disconnect, List.count_append, count_armDisconnect, h1,
        List.count_eq_zero.mpr (by
          intro hm
          rcases List.mem_map.mp hm with ⟨c, _, hc⟩
          exact LifeEvent.noConfusion hc)]
  · intro n hn
    have h1 : (r.cameras.map Prod.fst).count n = 1 := List.count_eq_one_of_mem hcnames hn
    refine ⟨?_, ?_⟩
    · rw [hconn]
      rw [List.count_append, count_camConnect, h1,
        List.count_eq_zero.mpr (by
          intro hm
          rcases List.mem_map.mp hm with ⟨p, _, hp⟩
          exact LifeEvent.noConfusion hp), Nat.zero_add]
    · rw [disconnect, List.count_append, count_camDisconnect, h1,
        List.count_eq_zero.mpr (by
          intro hm
          rcases List.mem_map.mp hm with ⟨p, _, hp⟩
          exact LifeEvent.noConfusion hp), Nat.zero_add]

/-- C6 witness: the two-arm, one-camera device with all connects succeeding,
calibrate-flag true. -/
theorem lifecycle_fanout_witness :
    ((∀ p ∈ devW.arms, p.2.connectOutcome true = Except.ok ()) ∧
     (∀ c ∈ devW.cameras, c.2.connectOutcome = Except.ok ()) ∧
     (devW.arms.map Prod.fst).Nodup ∧ (devW.cameras.map Prod.fst).Nodup) ∧
    ((connect devW true).1 = Except.ok () ∧
    (connect devW true).2 = devW.arms.map (fun p => LifeEvent.armConnect p.1 true)
        ++ devW.cameras.map (fun c => LifeEvent.camConnect c.1) ∧
    calibrate devW = devW.arms.map (fun p => LifeEvent.armCalibrate p.1) ∧
    configure devW = devW.arms.map (fun p => LifeEvent.armConfigure p.1) ∧
    disconnect devW = devW.arms.map (fun p => LifeEvent.armDisconnect p.1)
        ++ devW.cameras.map (fun c => LifeEvent.camDisconnect c.1) ∧
    (∀ n ∈ devW.arms.map Prod.fst,
      (connect devW true).2.count (LifeEvent.armConnect n true) = 1 ∧
      (calibrate devW).count (LifeEvent.armCalibrate n) = 1 ∧
      (configure devW).count (LifeEvent.armConfigure n) = 1 ∧
      (disconnect devW).count (LifeEvent.armDisconnect n) = 1) ∧
    (∀ n ∈ devW.cameras.map Prod.fst,
      (connect devW true).2.count (LifeEvent.camConnect n) = 1 ∧
      (disconnect devW).count (LifeEvent.camDisconnect n) = 1)) :=
  ⟨⟨by
      intro p hp
      rcases List.mem_cons.mp hp with rfl | hp'
      · rfl
      · rcases List.mem_cons.mp hp' with rfl | hp''
        · rfl
        · simp at hp'',
    by
      intro c hc
      rcases List.mem_cons.mp hc with rfl | hc'
      · rfl
      · simp at hc',
    by decide, by decide⟩,
    lifecycle_fanout devW true
      (by
        intro p hp
        rcases List.mem_cons.mp hp with rfl | hp'
        · rfl
        · rcases List.mem_cons.mp hp' with rfl | hp''
          · rfl
          · simp at hp'')
      (by
        intro c hc
        rcases List.mem_cons.mp hc with rfl | hc'
        · rfl
        · simp at hc')
      (by decide) (by decide)⟩

/-- C7 (no failure recovery): `connect` is not atomic.  Arm case: when an
arm's `connect` raises after the arms before it connected cleanly, the
exception propagates to the caller; the arms after it and all cameras are
not connected, and nothing already connected is disconnected or otherwise
rolled back.  Camera case: when every arm connects cleanly and a camera's
`connect` raises after the cameras before it connected cleanly, the
exception propagates; the cameras after it are not connected, and nothing
already connected is disconnected or otherwise rolled back. -/
theorem connect_not_atomic {V : Type} (r : MultiSO101Follower V) (cal : Bool) :
    (∀ (pre : List (String × SO101Follower V)) (n : String) (a : SO101Follower V)
        (post : List (String × SO101Follower V)) (e : String),
      r.arms = pre ++ (n, a) :: post →
      (∀ p ∈ pre, p.2.connectOutcome cal = Except.ok ()) →
      a.connectOutcome cal = Except.error e →
      (r.arms.map Prod.fst).Nodup →
      (connect r cal).1 = Except.error e ∧
      (connect r cal).2 =
        pre.map (fun p => LifeEvent.armConnect p.1 cal) ++ [LifeEvent.armConnect n cal] ∧
      (∀ p ∈ post, LifeEvent.armConnect p.1 cal ∉ (connect r cal).2) ∧
      (∀ c ∈ r.cameras, LifeEvent.camConnect c.1 ∉ (connect r cal).2) ∧
      (∀ m, LifeEvent.armDisconnect m ∉ (connect r cal).2 ∧
            LifeEvent.camDisconnect m ∉ (connect r cal).2)) ∧
    (∀ (pre : List (String × Camera V)) (n : String) (c : Camera V)
        (post : List (String × Camera V)) (e : String),
      r.cameras = pre ++ (n, c) :: post →
      (∀ p ∈ r.arms, p.2.connectOutcome cal = Except.ok ()) →
      (∀ d ∈ pre, d.2.connectOutcome = Except.ok ()) →
      c.connectOutcome = Except.error e →
      (r.cameras.map Prod.fst).Nodup →
      (connect r cal).1 = Except.error e ∧
      (connect r cal).2 =
        r.arms.map (fun p => LifeEvent.armConnect p.1 cal) ++
          (pre.map (fun d => LifeEvent.camConnect d.1) ++ [LifeEvent.camConnect n]) ∧
      (∀ d ∈ post, LifeEvent.camConnect d.1 ∉ (connect r cal).2) ∧
      (∀ m, LifeEvent.armDisconnect m ∉ (connect r cal).2 ∧
            LifeEvent.camDisconnect m ∉ (connect r cal).2)) := by
  constructor
  · intro pre n a post e harms hpre hfail hnames
    have hca := connectArms_fail cal n a post e hfail pre hpre
    have hcon : connect r cal = (Except.error e,
        pre.map (fun p => LifeEvent.armConnect p.1 cal) ++ [LifeEvent.armConnect n cal]) := by
      simp [connect, harms, hca]
    rw [harms, List.map_append, List.map_cons] at hnames
    have hparts := List.nodup_append.mp hnames
    refine ⟨by rw [hcon], by rw [hcon], ?_, ?_, ?_⟩
    · intro p hp hmem
      rw [hcon] at hmem
      rcases List.mem_append.mp hmem with hm | hm
      · rcases List.mem_map.mp hm with ⟨q, hq, heq⟩
        simp only [LifeEvent.armConnect.injEq] at heq
        refine hparts.2.2 (List.mem_map_of_mem Prod.fst hq) ?_
        rw [heq.1]
        have hm2 : p.1 ∈ List.map Prod.fst post := List.mem_map_of_mem Prod.fst hp
        exact List.mem_cons_of_mem _ hm2
      · rw [List.mem_singleton] at hm
        simp only [LifeEvent.armConnect.injEq] at hm
        rcases List.nodup_cons.mp hparts.2.1 with ⟨hnin, _⟩
        apply hnin
        rw [← hm.1]
        have hm2 : p.1 ∈ List.map Prod.fst post := List.mem_map_of_mem Prod.fst hp
        exact hm2
    · intro c _ hmem
      rw [hcon] at hmem
      rcases List.mem_append.mp hmem with hm | hm
      · rcases List.mem_map.mp hm with ⟨q, _, heq⟩
        exact LifeEvent.noConfusion heq
      · rw [List.mem_singleton] at hm
        exact LifeEvent.noConfusion hm
    · intro m
      constructor
      · intro hmem
        rw [hcon] at hmem
        rcases List.mem_append.mp hmem with hm | hm
        · rcases List.mem_map.mp hm with ⟨q, _, heq⟩
          exact LifeEvent.noConfusion heq
        · rw [List.mem_singleton] at hm
          exact LifeEvent.noConfusion hm
      · intro hmem
        rw [hcon] at hmem
        rcases List.mem_append.mp hmem with hm | hm
        · rcases List.mem_map.mp hm with ⟨q, _, heq⟩
          exact LifeEvent.noConfusion heq
        · rw [List.mem_singleton] at hm
          exact LifeEvent.noConfusion hm
  · intro pre n c post e hcams harmok hpreok hfail hcnames
    have hca := connectArms_ok cal r.arms harmok
    have hcc := connectCams_fail n c post e hfail pre hpreok
    have hcon : connect r cal = (Except.error e,
        r.arms.map (fun p => LifeEvent.armConnect p.1 cal) ++
          (pre.map (fun d => LifeEvent.camConnect d.1) ++ [LifeEvent.camConnect n])) := by
      simp [connect, hca, hcams, hcc]
    rw [hcams, List.map_append, List.map_cons] at hcnames
    have hparts := List.nodup_append.mp hcnames
    refine ⟨by rw [hcon], by rw [hcon], ?_, ?_⟩
    · intro d hd hmem
      rw [hcon] at hmem
      rcases List.mem_append.mp hmem with hm | hm
      · rcases List.mem_map.mp hm with ⟨q, _, heq⟩
        exact LifeEvent.noConfusion heq
      · rcases List.mem_append.mp hm with hm2 | hm2
        · rcases List.mem_map.mp hm2 with ⟨q, hq, heq⟩
          simp only [LifeEvent.camConnect.injEq] at heq
          refine hparts.2.2 (List.mem_map_of_mem Prod.fst hq) ?_
          rw [heq]
          have hm3 : d.1 ∈ List.map Prod.fst post := List.mem_map_of_mem Prod.fst hd
          exact List.mem_cons_of_mem _ hm3
        · rw [List.mem_singleton] at hm2
          simp only [LifeEvent.camConnect.injEq] at hm2
          rcases List.nodup_cons.mp hparts.2.1 with ⟨hnin, _⟩
          apply hnin
          rw [← hm2]
          have hm3 : d.1 ∈ List.map Prod.fst post := List.mem_map_of_mem Prod.fst hd
          exact hm3
    · intro m
      constructor
      · intro hmem
        rw [hcon] at hmem
        rcases List.mem_append.mp hmem with hm | hm
        · rcases List.mem_map.mp hm with ⟨q, _, heq⟩
          exact LifeEvent.noConfusion heq
        · rcases List.mem_append.mp hm with hm2 | hm2
          · rcases List.mem_map.mp hm2 with ⟨q, _, heq⟩
            exact LifeEvent.noConfusion heq
          · rw [List.mem_singleton] at hm2
            exact LifeEvent.noConfusion hm2
      · intro hmem
        rw [hcon] at hmem
        rcases List.mem_append.mp hmem with hm | hm
        · rcases List.mem_map.mp hm with ⟨q, _, heq⟩
          exact LifeEvent.noConfusion heq
        · rcases List.mem_append.mp hm with hm2 | hm2
          · rcases List.mem_map.mp hm2 with ⟨q, _, heq⟩
            exact LifeEvent.noConfusion heq
          · rw [List.mem_singleton] at hm2
            exact LifeEvent.noConfusion hm2

/-- C7 witness: on `devF` the second arm's `connect` raises `"boom"` (the
first arm was connected, the third arm and the camera were not, nothing was
disconnected); on `devFC` the arm connects and the second camera's
`connect` raises `"cam boom"` (the third camera was not connected, nothing
was disconnected). -/
theorem connect_not_atomic_witness :
    ((devF.arms = [("arm1", idArm)] ++ ("arm2", failArm) :: [("arm3", idArm)]) ∧
      (∀ p ∈ [("arm1", idArm)], p.2.connectOutcome true = Except.ok ()) ∧
      failArm.connectOutcome true = Except.error "boom" ∧
      (devF.arms.map Prod.fst).Nodup ∧
      (devFC.cameras = [("cam1", camOk)] ++ ("cam2", failCam) :: [("cam3", camOk)]) ∧
      (∀ p ∈ devFC.arms, p.2.connectOutcome true = Except.ok ()) ∧
      (∀ d ∈ [("cam1", camOk)], d.2.connectOutcome = Except.ok ()) ∧
      failCam.connectOutcome = Except.error "cam boom" ∧
      (devFC.cameras.map Prod.fst).Nodup) ∧
    (((connect devF true).1 = Except.error "boom" ∧
     (connect devF true).2 =
       ([("arm1", idArm)] : List (String × SO101Follower Nat)).map
         (fun p => LifeEvent.armConnect p.1 true) ++ [LifeEvent.armConnect "arm2" true] ∧
     (∀ p ∈ [("arm3", idArm)], LifeEvent.armConnect p.1 true ∉ (connect devF true).2) ∧
     (∀ c ∈ devF.cameras, LifeEvent.camConnect c.1 ∉ (connect devF true).2) ∧
     (∀ m, LifeEvent.armDisconnect m ∉ (connect devF true).2 ∧
           LifeEvent.camDisconnect m ∉ (connect devF true).2)) ∧
    ((connect devFC true).1 = Except.error "cam boom" ∧
     (connect devFC true).2 =
       devFC.arms.map (fun p => LifeEvent.armConnect p.1 true) ++
         (([("cam1", camOk)] : List (String × Camera Nat)).map
           (fun d => LifeEvent.camConnect d.1) ++ [LifeEvent.camConnect "cam2"]) ∧
     (∀ d ∈ [("cam3", camOk)], LifeEvent.camConnect d.1 ∉ (connect devFC true).2) ∧
     (∀ m, LifeEvent.armDisconnect m ∉ (connect devFC true).2 ∧
           LifeEvent.camDisconnect m ∉ (connect devFC true).2))) :=
  ⟨⟨rfl,
    by
      intro p hp
      rcases List.mem_cons.mp hp with rfl | hp1
      · rfl
      · simp at hp1,
    rfl, by decide, rfl,
    by
      intro p hp
      rcases List.mem_cons.mp hp with rfl | hp1
      · rfl
      · simp at hp1,
    by
      intro d hd
      rcases List.mem_cons.mp hd with rfl | hd1
      · rfl
      · simp at hd1,
    rfl, by decide⟩,
    ⟨(connect_not_atomic devF true).1 [("arm1", idArm)] "arm2" failArm [("arm3", idArm)] "boom"
      rfl
      (by
        intro p hp
        rcases List.mem_cons.mp hp with rfl | hp1
        · rfl
        · simp at hp1)
      rfl (by decide),
    (connect_not_atomic devFC true).2 [("cam1", camOk)] "cam2" failCam [("cam3", camOk)] "cam boom"
      rfl
      (by
        intro p hp
        rcases List.mem_cons.mp hp with rfl | hp1
        · rfl
        · simp at hp1)
      (by
        intro d hd
        rcases List.mem_cons.mp hd with rfl | hd1
        · rfl
        · simp at hd1)
      rfl (by decide)⟩⟩

end MultiSO101
